import Mathlib

/-!
Verification of the update scheduling and retry core of the
flowercare-exporter repository (`internal/updater/updater.go`,
`internal/config/config.go`).

Modelling conventions:
* `time.Duration` and `time.Time` are integer nanoseconds (`Int`);
  Go durations are 64-bit, but none of the verified properties depend on
  overflow, so unbounded integers are used.
* Go maps (`map[string]queueItem`, `map[string]*data`) are association
  lists with the usual lookup/insert/delete; Go map iteration order is
  unspecified, so every operation that iterates over a map takes the
  iteration order as an explicit parameter ranging over permutations of
  the map's contents.
* `float64` arithmetic in the retry computation is modelled as exact
  rational arithmetic, with the final `time.Duration(...)` conversion
  truncating toward zero as Go does.
* The BLE read `miflora.ReadData` is opaque I/O and is passed to the
  scheduler as an oracle argument.
* A Go `nil`-pointer dereference (a crash) is modelled by a dedicated
  `panicked` outcome.
-/

namespace Flowercare

/-- `time.Duration`: integer nanoseconds. -/
abbrev Duration := Int

/-- `time.Time`: an instant, as integer nanoseconds since the epoch. -/
abbrev Time := Int

/-- One second in nanoseconds, mirroring Go `time.Second`. -/
def second : Int := 1000000000

/-- One minute in nanoseconds, mirroring Go `time.Minute`. -/
def minute : Int := 60 * second

/-- `config.Sensor`. -/
structure Sensor where
  name : String
  macAddress : String
deriving DecidableEq, Repr

/-- `miflora.Firmware`. -/
structure Firmware where
  version : String
  battery : Nat
deriving DecidableEq, Repr

/-- `miflora.Sensors` (the measured values; `float64` temperature modelled
as a rational). -/
structure SensorValues where
  temperature : ℚ
  moisture : Nat
  light : Nat
  conductivity : Nat
deriving DecidableEq, Repr

/-- `miflora.Data`: one reading. -/
structure MifloraData where
  time : Time
  firmware : Firmware
  sensors : SensorValues
deriving DecidableEq, Repr

/-- `config.RetryConfig`; the `float64` factor is modelled as a rational. -/
structure RetryConfig where
  minDuration : Duration
  maxDuration : Duration
  factor : ℚ
deriving DecidableEq, Repr

/-- `updater.data`: the per-sensor record held by the updater; the
`*miflora.Data` pointer (nil when no read has succeeded) is an `Option`. -/
structure DataEntry where
  info : Sensor
  data : Option MifloraData
deriving DecidableEq, Repr

/-- `updater.queueItem`. -/
structure QueueItem where
  sensor : Sensor
  time : Time
  lastRetry : Duration
deriving DecidableEq, Repr

/-! ### Association-list model of Go maps -/

/-- Lookup `m[k]` in a Go map modelled as an association list. -/
def mapLookup (m : List (String × α)) (k : String) : Option α :=
  (m.find? (fun p => p.1 == k)).map Prod.snd

/-- Assignment `m[k] = v` on a Go map: replaces any existing binding. -/
def mapInsert (m : List (String × α)) (k : String) (v : α) : List (String × α) :=
  (k, v) :: m.filter (fun p => p.1 != k)

/-- `delete(m, k)` on a Go map. -/
def mapDelete (m : List (String × α)) (k : String) : List (String × α) :=
  m.filter (fun p => p.1 != k)

/-- Number of bindings a map holds for key `k` (0 or 1 for a real Go map). -/
def countKey (m : List (String × α)) (k : String) : Nat :=
  (m.filter (fun p => p.1 == k)).length

theorem mapLookup_nil (k : String) : mapLookup ([] : List (String × α)) k = none := rfl

theorem mapLookup_cons (p : String × α) (m : List (String × α)) (k : String) :
    mapLookup (p :: m) k = if p.1 = k then some p.2 else mapLookup m k := by
  by_cases h : p.1 = k <;> simp [mapLookup, List.find?_cons, h]

theorem mapLookup_insert_self (m : List (String × α)) (k : String) (v : α) :
    mapLookup (mapInsert m k v) k = some v := by
  simp [mapInsert, mapLookup_cons]

theorem mapLookup_filter_ne (m : List (String × α)) (k k' : String) (hk : k ≠ k') :
    mapLookup (m.filter (fun p => p.1 != k)) k' = mapLookup m k' := by
  induction m with
  | nil => rfl
  | cons p m ih =>
    rw [List.filter_cons]
    by_cases hp : p.1 = k
    · have hne : p.1 ≠ k' := hp ▸ hk
      rw [if_neg (by simp [hp]), ih, mapLookup_cons, if_neg hne]
    · rw [if_pos (by simp [hp]), mapLookup_cons, mapLookup_cons, ih]

theorem mapLookup_insert_ne (m : List (String × α)) (k k' : String) (v : α) (h : k ≠ k') :
    mapLookup (mapInsert m k v) k' = mapLookup m k' := by
  rw [mapInsert, mapLookup_cons, if_neg h]
  exact mapLookup_filter_ne m k k' h

theorem mapLookup_delete_self (m : List (String × α)) (k : String) :
    mapLookup (mapDelete m k) k = none := by
  induction m with
  | nil => rfl
  | cons p m ih =>
    rw [mapDelete, List.filter_cons]
    by_cases hp : p.1 = k
    · rw [if_neg (by simp [hp])]
      exact ih
    · rw [if_pos (by simp [hp]), mapLookup_cons, if_neg hp]
      exact ih

theorem mapLookup_delete_ne (m : List (String × α)) (k k' : String) (h : k ≠ k') :
    mapLookup (mapDelete m k) k' = mapLookup m k' :=
  mapLookup_filter_ne m k k' h

theorem countKey_nil (k : String) : countKey ([] : List (String × α)) k = 0 := rfl

theorem filter_eq_key_of_filter_ne (l : List (String × α)) (k : String) :
    List.filter (fun p => p.1 == k) (List.filter (fun p => p.1 != k) l) = [] := by
  induction l with
  | nil => rfl
  | cons p l ih =>
    rw [List.filter_cons]
    by_cases hp : p.1 = k
    · rw [if_neg (by simp [hp])]
      exact ih
    · rw [if_pos (by simp [hp]), List.filter_cons, if_neg (by simp [hp])]
      exact ih

theorem countKey_insert_self (m : List (String × α)) (k : String) (v : α) :
    countKey (mapInsert m k v) k = 1 := by
  rw [countKey, mapInsert, List.filter_cons, if_pos (by simp), filter_eq_key_of_filter_ne]
  rfl

theorem filter_eq_key_comm_ne (l : List (String × α)) (k k' : String) (h : k ≠ k') :
    List.filter (fun p => p.1 == k') (List.filter (fun p => p.1 != k) l) =
      List.filter (fun p => p.1 == k') l := by
  induction l with
  | nil => rfl
  | cons p l ih =>
    rw [List.filter_cons]
    by_cases hp : p.1 = k
    · have hne : p.1 ≠ k' := hp ▸ h
      rw [if_neg (by simp [hp]), ih, List.filter_cons, if_neg (by simp [hne])]
    · rw [if_pos (by simp [hp]), List.filter_cons, List.filter_cons, ih]

theorem countKey_insert_ne (m : List (String × α)) (k k' : String) (v : α) (h : k ≠ k') :
    countKey (mapInsert m k v) k' = countKey m k' := by
  rw [countKey, mapInsert, List.filter_cons, if_neg (by simp [h]),
    filter_eq_key_comm_ne m k k' h]
  rfl

theorem countKey_delete_le (m : List (String × α)) (k k' : String) :
    countKey (mapDelete m k) k' ≤ countKey m k' := by
  simp only [countKey, mapDelete]
  exact List.Sublist.length_le ((List.filter_sublist _).filter _)

theorem mapLookup_of_mem_nodup (m : List (String × α)) (k : String) (v : α)
    (hmem : (k, v) ∈ m) (hnd : (m.map Prod.fst).Nodup) : mapLookup m k = some v := by
  induction m with
  | nil => cases hmem
  | cons p m ih =>
    rw [List.map_cons, List.nodup_cons] at hnd
    rcases List.mem_cons.mp hmem with h | h
    · rw [← h, mapLookup_cons, if_pos rfl]
    · have hk : p.1 ≠ k := by
        intro hpk
        exact hnd.1 (hpk ▸ (List.mem_map.mpr ⟨(k, v), h, rfl⟩))
      rw [mapLookup_cons, if_neg hk]
      exact ih h hnd.2

theorem mem_of_mapLookup (m : List (String × α)) (k : String) (v : α)
    (h : mapLookup m k = some v) : (k, v) ∈ m := by
  induction m with
  | nil => cases h
  | cons p m ih =>
    rw [mapLookup_cons] at h
    by_cases hp : p.1 = k
    · rw [if_pos hp] at h
      have hv : p.2 = v := Option.some.inj h
      have hpe : p = (k, v) := Prod.ext hp hv
      rw [← hpe]
      exact List.mem_cons_self _ _
    · rw [if_neg hp] at h
      exact List.mem_cons_of_mem _ (ih h)

/-! ### The updater state

The mutable fields of `updater.Updater` that the scheduling logic touches:
the retry/refresh queue (`queue map[string]queueItem`) and the per-sensor
data map (`dataMap map[string]*data`).  The locks guarding them are
irrelevant to the sequential model. -/

/-- The mutable state of `updater.Updater`. -/
structure UpdaterState where
  queue : List (String × QueueItem)
  dataMap : List (String × DataEntry)
deriving DecidableEq, Repr

/-- The state `updater.New` starts from: both maps empty. -/
def initialState : UpdaterState := ⟨[], []⟩

/-- Errors produced by the updater (`fmt.Errorf`/`errors.New` values in
`GetData`). -/
inductive UpdaterError where
  | unknownSensor (mac : String)
  | noData
deriving DecidableEq, Repr

/-- `Updater.AddSensor`: stores a fresh record (`&data{Info: sensor}`, so
with a nil reading) under the sensor's MAC address. -/
def addSensor (st : UpdaterState) (sensor : Sensor) : UpdaterState :=
  { st with dataMap := mapInsert st.dataMap sensor.macAddress ⟨sensor, none⟩ }

/-- `Updater.GetData`: pure lookup, no I/O and no state change (the Go
method takes only a read lock and returns a copy). -/
def getData (st : UpdaterState) (macAddress : String) : Except UpdaterError MifloraData :=
  match mapLookup st.dataMap macAddress with
  | none => .error (.unknownSensor macAddress)
  | some d =>
    match d.data with
    | none => .error .noData
    | some v => .ok v

/-- `Updater.getSensors`: the `Info` fields of the data map, in map
iteration order (the map model's list order stands in for one such
order; for distinct keys the callers' behaviour does not depend on it). -/
def getSensors (st : UpdaterState) : List Sensor :=
  st.dataMap.map (fun p => p.2.info)

/-- `scheduleUpdate`: `u.queue[mac] = queueItem{Sensor, time.Now(), 0}`.
The `time.Now()` call is modelled by the explicit `clock` argument. -/
def scheduleUpdate (st : UpdaterState) (sensor : Sensor) (clock : Time) : UpdaterState :=
  { st with queue := mapInsert st.queue sensor.macAddress ⟨sensor, clock, 0⟩ }

/-- `Updater.UpdateAll`: schedules every registered sensor.  The Go method
takes a `now time.Time` argument but its body never uses it; the
`time.Now()` readings inside `scheduleUpdate` are modelled by `clock`. -/
def updateAll (st : UpdaterState) (now : Time) (clock : Time) : UpdaterState :=
  (getSensors st).foldl (fun s sensor => scheduleUpdate s sensor clock) st

/-- Truncation toward zero, as Go's `float64` → `time.Duration` conversion
(`-((-q).floor)` is the ceiling, used for negative values). -/
def truncRat (q : ℚ) : Int :=
  if 0 ≤ q then q.floor else -((-q).floor)

/-- The backoff step inlined at the top of `Updater.retryItem`
(lines 204-214): floor at `MinDuration`, otherwise multiply by `Factor`
and cap at `MaxDuration`. -/
def nextRetry (rc : RetryConfig) (previous : Duration) : Duration :=
  if previous < rc.minDuration then
    rc.minDuration
  else if truncRat ((previous : ℚ) * rc.factor) > rc.maxDuration then
    rc.maxDuration
  else
    truncRat ((previous : ℚ) * rc.factor)

/-- `Updater.retryItem`: re-enqueue a failed item, due after the grown
backoff delay. -/
def retryItem (rc : RetryConfig) (st : UpdaterState) (item : QueueItem) (now : Time) :
    UpdaterState :=
  let retryAfter := nextRetry rc item.lastRetry
  { st with
    queue := mapInsert st.queue item.sensor.macAddress
      ⟨item.sensor, now + retryAfter, retryAfter⟩ }

/-! ### The queue drain (`getNextQueueItem`)

`sort.Slice(items, less = Time.Before)` over the values of the queue map.
Go map iteration order is unspecified, so the iteration order is an
explicit argument (`order`), constrained in the theorems to be a
permutation of the queue's values. -/

/-- One step of the insertion sort modelling `sort.Slice` with
`less(i,j) = items[i].Time.Before(items[j].Time)`. -/
def insertByTime (x : QueueItem) : List QueueItem → List QueueItem
  | [] => [x]
  | y :: ys => if x.time < y.time then x :: y :: ys else y :: insertByTime x ys

/-- Sort queue items by due time (a sort w.r.t. `Time.Before`). -/
def sortByTime : List QueueItem → List QueueItem
  | [] => []
  | x :: xs => insertByTime x (sortByTime xs)

/-- `Updater.getNextQueueItem`: if the earliest-due entry (first of the
sorted values) is due, remove it from the queue and return it; otherwise
leave the queue unchanged.  Returns the popped item (if any) and the
resulting queue. -/
def getNextQueueItem (queue : List (String × QueueItem)) (order : List QueueItem)
    (now : Time) : Option QueueItem × List (String × QueueItem) :=
  if queue.isEmpty then
    (none, queue)
  else
    match sortByTime order with
    | [] => (none, queue)
    | next :: _ =>
      if next.time - now > 0 then
        (none, queue)
      else
        (some next, mapDelete queue next.sensor.macAddress)

/-- Result of one `updateSensor` call (`updater.go` lines 184-202). -/
inductive UpdateResult where
  /-- The read succeeded and the reading was stored. -/
  | ok (st : UpdaterState)
  /-- The BLE read failed; the error is returned to the loop, the state is
  untouched. -/
  | err (msg : String)
  /-- The Go code would crash: `u.dataMap[mac]` is nil for an unregistered
  sensor and `mapItem.Data = &data` dereferences it. -/
  | panicked
deriving DecidableEq, Repr

/-- `Updater.updateSensor`: perform one BLE read (the oracle `readResult`
models `miflora.ReadData`) and on success store the reading in the data
map. -/
def updateSensor (st : UpdaterState) (sensor : Sensor)
    (readResult : Except String MifloraData) : UpdateResult :=
  match readResult with
  | .error e => .err ("can not read data: " ++ e)
  | .ok d =>
    match mapLookup st.dataMap sensor.macAddress with
    | none => .panicked
    | some entry =>
      .ok { st with
        dataMap := mapInsert st.dataMap sensor.macAddress ⟨entry.info, some d⟩ }

/-- One iteration of the ticker loop in `Updater.Start` (lines 106-117):
pop at most one due queue entry, run at most one update attempt against
it, re-enqueue on failure.  Returns the new state (`none` when the Go
code would panic) and the list of BLE reads performed this iteration. -/
def loopTick (rc : RetryConfig) (st : UpdaterState) (order : List QueueItem)
    (now : Time) (readResult : String → Except String MifloraData) :
    Option UpdaterState × List String :=
  match getNextQueueItem st.queue order now with
  | (none, _) => (some st, [])
  | (some next, queueAfter) =>
    let popped : UpdaterState := { st with queue := queueAfter }
    match updateSensor popped next.sensor (readResult next.sensor.macAddress) with
    | .ok st2 => (some st2, [next.sensor.macAddress])
    | .err _ => (some (retryItem rc popped next now), [next.sensor.macAddress])
    | .panicked => (none, [next.sensor.macAddress])

/-- The inputs of one loop iteration: a map iteration order, the tick
time, and the BLE read oracle for that iteration. -/
structure TickInput where
  order : List QueueItem
  now : Time
  readResult : String → Except String MifloraData

/-- A run of the ticker loop: the iterations execute strictly one after
another (the loop body of `Updater.Start` is sequential straight-line
code).  Returns the final state and the concatenated log of BLE reads. -/
def runTicks (rc : RetryConfig) (st : UpdaterState) :
    List TickInput → Option UpdaterState × List String
  | [] => (some st, [])
  | t :: rest =>
    match loopTick rc st t.order t.now t.readResult with
    | (none, reads) => (none, reads)
    | (some st1, reads) =>
      let tail := runTicks rc st1 rest
      (tail.1, reads ++ tail.2)

/-! ### Configuration validation (`config.Parse`, lines 133-161) -/

/-- The parsed configuration relevant to validation. -/
structure Config where
  sensors : List Sensor
  device : String
  refreshDuration : Duration
  staleDuration : Duration
  retry : RetryConfig
deriving DecidableEq, Repr

/-- The distinct validation errors `config.Parse` can return after flag
parsing (the sub-minute refresh duration only logs a warning). -/
inductive ParseError where
  | noSensors
  | noDevice
  | staleTooSmall
  | retryMinTooSmall
  | retryMaxLessThanMin
  | retryFactorTooSmall
deriving DecidableEq, Repr

/-- The validation chain of `config.Parse` (lines 133-161), in source
order. -/
def validateConfig (c : Config) : Except ParseError Config :=
  if c.sensors.isEmpty then .error .noSensors
  else if c.device.isEmpty then .error .noDevice
  else if c.staleDuration < 2 * c.refreshDuration then .error .staleTooSmall
  else if c.retry.minDuration < 30 * second then .error .retryMinTooSmall
  else if c.retry.maxDuration < c.retry.minDuration then .error .retryMaxLessThanMin
  else if c.retry.factor < 1 then .error .retryFactorTooSmall
  else .ok c

/-- The default retry configuration (`config.Parse` defaults):
`min = 30s`, `max = 30m`, `factor = 2`. -/
def defaultRetry : RetryConfig :=
  ⟨30 * second, 30 * minute, 2⟩

/-- The backoff delays produced by iterating the backoff step from a first
failure (`lastRetry = 0`) under the default retry configuration. -/
def backoffSeq (n : Nat) : Duration :=
  (fun d => nextRetry defaultRetry d)^[n] 0

/-! ### Properties of the backoff step -/

theorem truncRat_intCast (n : Int) : truncRat (n : ℚ) = n := by
  unfold truncRat
  have hfl : ((n : ℚ)).floor = n := by
    have h : ((n : ℚ)).floor = ⌊(n : ℚ)⌋ := rfl
    rw [h, Int.floor_intCast]
  by_cases h0 : (0 : ℚ) ≤ (n : ℚ)
  · rw [if_pos h0, hfl]
  · rw [if_neg h0]
    have hneg : (-(n : ℚ)) = ((-n : Int) : ℚ) := by push_cast; ring
    have h2 : (((-n : Int) : ℚ)).floor = -n := by
      have h : (((-n : Int) : ℚ)).floor = ⌊((-n : Int) : ℚ)⌋ := rfl
      rw [h, Int.floor_intCast]
    rw [hneg, h2, neg_neg]

theorem truncRat_eq_floor_of_nonneg (q : ℚ) (h : 0 ≤ q) : truncRat q = ⌊q⌋ := by
  unfold truncRat
  rw [if_pos h]
  rfl

theorem le_truncRat (n : Int) (q : ℚ) (hq : 0 ≤ q) (h : (n : ℚ) ≤ q) :
    n ≤ truncRat q := by
  rw [truncRat_eq_floor_of_nonneg q hq]
  exact Int.le_floor.mpr h

theorem truncRat_nonneg (q : ℚ) (h : 0 ≤ q) : 0 ≤ truncRat q :=
  le_truncRat 0 q h (by exact_mod_cast h)

theorem nextRetry_of_lt (rc : RetryConfig) (p : Duration) (h : p < rc.minDuration) :
    nextRetry rc p = rc.minDuration := by
  unfold nextRetry
  rw [if_pos h]

theorem nextRetry_of_ge (rc : RetryConfig) (p : Duration) (h : rc.minDuration ≤ p) :
    nextRetry rc p = min (truncRat ((p : ℚ) * rc.factor)) rc.maxDuration := by
  unfold nextRetry
  rw [if_neg (not_lt.mpr h)]
  by_cases hg : truncRat ((p : ℚ) * rc.factor) > rc.maxDuration
  · rw [if_pos hg]
    exact (min_eq_right (le_of_lt hg)).symm
  · rw [if_neg hg]
    push_neg at hg
    exact (min_eq_left hg).symm

theorem nextRetry_le_max (rc : RetryConfig) (p : Duration)
    (hminmax : rc.minDuration ≤ rc.maxDuration) :
    nextRetry rc p ≤ rc.maxDuration := by
  by_cases h : p < rc.minDuration
  · rw [nextRetry_of_lt rc p h]
    exact hminmax
  · push_neg at h
    rw [nextRetry_of_ge rc p h]
    exact min_le_right _ _

theorem le_nextRetry (rc : RetryConfig) (p : Duration) (hp : 0 ≤ p)
    (hpmax : p ≤ rc.maxDuration) (hf : 1 ≤ rc.factor) :
    p ≤ nextRetry rc p := by
  by_cases h : p < rc.minDuration
  · rw [nextRetry_of_lt rc p h]
    exact le_of_lt h
  · push_neg at h
    rw [nextRetry_of_ge rc p h]
    refine le_min ?_ hpmax
    have hq : (0 : ℚ) ≤ (p : ℚ) * rc.factor :=
      mul_nonneg (by exact_mod_cast hp) (le_trans zero_le_one hf)
    refine le_truncRat p _ hq ?_
    calc (p : ℚ) = (p : ℚ) * 1 := by ring
      _ ≤ (p : ℚ) * rc.factor := by
          exact mul_le_mul_of_nonneg_left hf (by exact_mod_cast hp)

theorem nextRetry_default_double (p : Duration) (h30 : 30 * second ≤ p) :
    nextRetry defaultRetry p = min (2 * p) (30 * minute) := by
  rw [nextRetry_of_ge defaultRetry p h30]
  have hcast : ((p : ℚ) * defaultRetry.factor) = ((2 * p : Int) : ℚ) := by
    show ((p : ℚ) * 2) = _
    push_cast
    ring
  rw [hcast, truncRat_intCast]
  rfl

/-- C2: the backoff step is the pure function of the spec — below the
floor it returns `minDuration`, otherwise `min(previous * factor,
maxDuration)`; for a valid configuration the result never exceeds
`maxDuration`; and under the default configuration (`min = 30s`,
`max = 30m`, `factor = 2`) the iterated delays are 30s, 60s, 120s, 240s,
480s, 960s, then capped at 1800s, never exceeding the maximum. -/
theorem backoff_step_spec (rc : RetryConfig) (previous : Duration)
    (hvalid : rc.minDuration ≤ rc.maxDuration) (hfactor : 1 ≤ rc.factor)
    (hprev : 0 ≤ previous) :
    (previous < rc.minDuration → nextRetry rc previous = rc.minDuration) ∧
    (rc.minDuration ≤ previous →
      nextRetry rc previous = min (truncRat ((previous : ℚ) * rc.factor)) rc.maxDuration) ∧
    nextRetry rc previous ≤ rc.maxDuration ∧
    (∀ n : Nat, backoffSeq n ≤ 30 * minute) ∧
    backoffSeq 1 = 30 * second ∧ backoffSeq 2 = 60 * second ∧
    backoffSeq 3 = 120 * second ∧ backoffSeq 4 = 240 * second ∧
    backoffSeq 5 = 480 * second ∧ backoffSeq 6 = 960 * second ∧
    backoffSeq 7 = 1800 * second ∧ backoffSeq 8 = 1800 * second := by
  have hseq : ∀ n : Nat, backoffSeq (n + 1) = nextRetry defaultRetry (backoffSeq n) := by
    intro n
    unfold backoffSeq
    rw [Function.iterate_succ_apply']
  have h1 : backoffSeq 1 = 30 * second := by
    rw [hseq 0]
    show nextRetry defaultRetry 0 = 30 * second
    rw [nextRetry_of_lt defaultRetry 0 (by decide)]
    rfl
  have step : ∀ p r : Duration, 30 * second ≤ p → min (2 * p) (30 * minute) = r →
      nextRetry defaultRetry p = r := by
    intro p r hp hr
    rw [nextRetry_default_double p hp, hr]
  have h2 : backoffSeq 2 = 60 * second := by
    rw [hseq 1, h1]
    exact step _ _ (by decide) (by decide)
  have h3 : backoffSeq 3 = 120 * second := by
    rw [hseq 2, h2]
    exact step _ _ (by decide) (by decide)
  have h4 : backoffSeq 4 = 240 * second := by
    rw [hseq 3, h3]
    exact step _ _ (by decide) (by decide)
  have h5 : backoffSeq 5 = 480 * second := by
    rw [hseq 4, h4]
    exact step _ _ (by decide) (by decide)
  have h6 : backoffSeq 6 = 960 * second := by
    rw [hseq 5, h5]
    exact step _ _ (by decide) (by decide)
  have h7 : backoffSeq 7 = 1800 * second := by
    rw [hseq 6, h6]
    exact step _ _ (by decide) (by decide)
  have h8 : backoffSeq 8 = 1800 * second := by
    rw [hseq 7, h7]
    exact step _ _ (by decide) (by decide)
  have hbound : ∀ n : Nat, backoffSeq n ≤ 30 * minute := by
    intro n
    induction n with
    | zero => decide
    | succ n _ =>
      rw [hseq n]
      exact nextRetry_le_max defaultRetry _ (by decide)
  exact ⟨nextRetry_of_lt rc previous, nextRetry_of_ge rc previous,
    nextRetry_le_max rc previous hvalid, hbound, h1, h2, h3, h4, h5, h6, h7, h8⟩

/-- Witness for `backoff_step_spec` at the default configuration and a
zero previous delay. -/
theorem backoff_step_spec_witness :
    nextRetry defaultRetry 0 ≤ defaultRetry.maxDuration ∧ backoffSeq 7 = 1800 * second :=
  ⟨(backoff_step_spec defaultRetry 0 (by decide) (by decide) (by decide)).2.2.1,
   (backoff_step_spec defaultRetry 0 (by decide) (by decide) (by decide)).2.2.2.2.2.2.2.2.2.2.1⟩

/-! ### Store properties: `GetData`, `AddSensor`, the store write -/

/-- C4: `GetData` fails with the unknown-sensor error exactly for
addresses that were never registered, fails with the no-data error for
registered addresses with no stored reading, and otherwise returns the
stored reading.  It is a pure read of the in-memory state: the model is a
function of the state that returns no new state, mirroring the Go method
which takes only a read lock, performs no I/O and returns a copy. -/
theorem getData_spec (st : UpdaterState) (macAddress : String) :
    (mapLookup st.dataMap macAddress = none →
      getData st macAddress = .error (.unknownSensor macAddress)) ∧
    (∀ e, mapLookup st.dataMap macAddress = some e → e.data = none →
      getData st macAddress = .error .noData) ∧
    (∀ e d, mapLookup st.dataMap macAddress = some e → e.data = some d →
      getData st macAddress = .ok d) := by
  refine ⟨?_, ?_, ?_⟩
  · intro h
    unfold getData
    rw [h]
  · intro e he hd
    simp [getData, he, hd]
  · intro e d he hd
    simp [getData, he, hd]

/-- Witness for `getData_spec`: an address that was never registered. -/
theorem getData_spec_witness :
    getData initialState "AA:BB" = .error (.unknownSensor "AA:BB") :=
  (getData_spec initialState "AA:BB").1 rfl

/-- C10: calling `AddSensor` again for an already-registered MAC address
replaces the stored identity and clears the stored reading — `GetData`
for that address returns the no-data error afterwards — while every other
record and the queue are untouched, and the call is total (never fails). -/
theorem addSensor_reregister_spec (st : UpdaterState) (sensor : Sensor) :
    mapLookup (addSensor st sensor).dataMap sensor.macAddress = some ⟨sensor, none⟩ ∧
    getData (addSensor st sensor) sensor.macAddress = .error .noData ∧
    (addSensor st sensor).queue = st.queue ∧
    (∀ k, k ≠ sensor.macAddress →
      mapLookup (addSensor st sensor).dataMap k = mapLookup st.dataMap k) := by
  refine ⟨mapLookup_insert_self _ _ _, ?_, rfl, ?_⟩
  · unfold getData addSensor
    rw [mapLookup_insert_self]
  · intro k hk
    exact mapLookup_insert_ne _ _ _ _ (Ne.symm hk)

/-- Witness for `addSensor_reregister_spec`: re-register an address whose
record already holds a reading; the reading is gone. -/
theorem addSensor_reregister_witness :
    getData (addSensor initialState ⟨"plant", "AA"⟩) "AA" = .error .noData :=
  (addSensor_reregister_spec initialState ⟨"plant", "AA"⟩).2.1

/-- A concrete reading used in witnesses. -/
def exampleReading : MifloraData :=
  ⟨0, ⟨"3.2.2", 100⟩, ⟨21, 40, 100, 500⟩⟩

/-- C8 (evaluation at the failing input): the scheduler's store write
after a successful read — `mapItem := u.dataMap[mac]; mapItem.Data = &data`
in `updateSensor` — crashes for an address that was never registered:
the map lookup yields a nil `*data` and the field write dereferences it.
The spec instead requires a defensive unknown-sensor error without a
crash. -/
theorem setLatest_unregistered_panics :
    updateSensor initialState ⟨"", "AA:BB"⟩ (.ok exampleReading) = .panicked := rfl

/-! ### Configuration validation -/

/-- C7: once the sensor-list, device and staleness checks pass,
`config.Parse` rejects the configuration exactly when
`minDuration < 30s`, `maxDuration < minDuration`, or `factor < 1`, and a
configuration passing those retry checks is returned unchanged. -/
theorem retry_validation_spec (c : Config)
    (hs : ¬c.sensors.isEmpty) (hd : ¬c.device.isEmpty)
    (hstale : ¬c.staleDuration < 2 * c.refreshDuration) :
    ((∃ e, validateConfig c = .error e) ↔
      (c.retry.minDuration < 30 * second ∨ c.retry.maxDuration < c.retry.minDuration ∨
        c.retry.factor < 1)) ∧
    (¬(c.retry.minDuration < 30 * second ∨ c.retry.maxDuration < c.retry.minDuration ∨
        c.retry.factor < 1) → validateConfig c = .ok c) := by
  unfold validateConfig
  rw [if_neg (by simpa using hs), if_neg (by simpa using hd), if_neg hstale]
  constructor
  · constructor
    · rintro ⟨e, he⟩
      by_cases h1 : c.retry.minDuration < 30 * second
      · exact Or.inl h1
      rw [if_neg h1] at he
      by_cases h2 : c.retry.maxDuration < c.retry.minDuration
      · exact Or.inr (Or.inl h2)
      rw [if_neg h2] at he
      by_cases h3 : c.retry.factor < 1
      · exact Or.inr (Or.inr h3)
      rw [if_neg h3] at he
      cases he
    · rintro (h | h | h)
      · exact ⟨.retryMinTooSmall, by rw [if_pos h]⟩
      · by_cases h1 : c.retry.minDuration < 30 * second
        · exact ⟨.retryMinTooSmall, by rw [if_pos h1]⟩
        · exact ⟨.retryMaxLessThanMin, by rw [if_neg h1, if_pos h]⟩
      · by_cases h1 : c.retry.minDuration < 30 * second
        · exact ⟨.retryMinTooSmall, by rw [if_pos h1]⟩
        by_cases h2 : c.retry.maxDuration < c.retry.minDuration
        · exact ⟨.retryMaxLessThanMin, by rw [if_neg h1, if_pos h2]⟩
        · exact ⟨.retryFactorTooSmall, by rw [if_neg h1, if_neg h2, if_pos h]⟩
  · intro h
    rw [not_or, not_or] at h
    obtain ⟨h1, h2, h3⟩ := h
    rw [if_neg h1, if_neg h2, if_neg h3]

/-- A concrete configuration matching the flag defaults plus one sensor. -/
def exampleConfig : Config :=
  ⟨[⟨"plant", "AA:BB"⟩], "hci0", 2 * minute, 5 * minute, defaultRetry⟩

/-- Witness for `retry_validation_spec`: the default configuration passes
all checks. -/
theorem retry_validation_witness : validateConfig exampleConfig = .ok exampleConfig :=
  (retry_validation_spec exampleConfig (by decide) (by decide) (by decide)).2 (by decide)

/-! ### Queue shape: at most one entry per address -/

theorem getNextQueueItem_queue_cases (queue : List (String × QueueItem))
    (order : List QueueItem) (now : Time) :
    (getNextQueueItem queue order now).2 = queue ∨
    ∃ next : QueueItem,
      (getNextQueueItem queue order now).2 = mapDelete queue next.sensor.macAddress := by
  unfold getNextQueueItem
  split
  · exact Or.inl rfl
  · split
    · exact Or.inl rfl
    · split
      · exact Or.inl rfl
      · exact Or.inr ⟨_, rfl⟩

/-- C5: the queue keeps at most one entry per sensor address.  Both
scheduling paths (`scheduleUpdate` from `UpdateAll`, and `retryItem`) are
Go map assignments: they replace any existing entry for the address with
the newer request (afterwards exactly one entry for it exists), they
preserve the at-most-one-entry-per-key invariant, and the drain's
`delete` preserves it as well. -/
theorem queue_at_most_one_entry (st : UpdaterState)
    (hq : ∀ k, countKey st.queue k ≤ 1) :
    (∀ (sensor : Sensor) (clock : Time),
      mapLookup (scheduleUpdate st sensor clock).queue sensor.macAddress =
        some ⟨sensor, clock, 0⟩ ∧
      countKey (scheduleUpdate st sensor clock).queue sensor.macAddress = 1 ∧
      ∀ k, countKey (scheduleUpdate st sensor clock).queue k ≤ 1) ∧
    (∀ (rc : RetryConfig) (item : QueueItem) (now : Time),
      mapLookup (retryItem rc st item now).queue item.sensor.macAddress =
        some ⟨item.sensor, now + nextRetry rc item.lastRetry, nextRetry rc item.lastRetry⟩ ∧
      countKey (retryItem rc st item now).queue item.sensor.macAddress = 1 ∧
      ∀ k, countKey (retryItem rc st item now).queue k ≤ 1) ∧
    (∀ (order : List QueueItem) (now : Time) (k : String),
      countKey (getNextQueueItem st.queue order now).2 k ≤ 1) := by
  refine ⟨?_, ?_, ?_⟩
  · intro sensor clock
    refine ⟨mapLookup_insert_self _ _ _, countKey_insert_self _ _ _, ?_⟩
    intro k
    rw [show (scheduleUpdate st sensor clock).queue =
      mapInsert st.queue sensor.macAddress ⟨sensor, clock, 0⟩ from rfl]
    by_cases hk : sensor.macAddress = k
    · rw [← hk, countKey_insert_self]
    · rw [countKey_insert_ne _ _ _ _ hk]
      exact hq k
  · intro rc item now
    refine ⟨mapLookup_insert_self _ _ _, countKey_insert_self _ _ _, ?_⟩
    intro k
    rw [show (retryItem rc st item now).queue = mapInsert st.queue item.sensor.macAddress
      ⟨item.sensor, now + nextRetry rc item.lastRetry, nextRetry rc item.lastRetry⟩ from rfl]
    by_cases hk : item.sensor.macAddress = k
    · rw [← hk, countKey_insert_self]
    · rw [countKey_insert_ne _ _ _ _ hk]
      exact hq k
  · intro order now k
    rcases getNextQueueItem_queue_cases st.queue order now with h | ⟨next, h⟩
    · rw [h]
      exact hq k
    · rw [h]
      exact le_trans (countKey_delete_le _ _ _) (hq k)

/-- Witness for `queue_at_most_one_entry`: scheduling into the empty
queue. -/
theorem queue_at_most_one_entry_witness :
    mapLookup (scheduleUpdate initialState ⟨"plant", "AA"⟩ 5).queue "AA" =
      some ⟨⟨"plant", "AA"⟩, 5, 0⟩ ∧
    countKey (scheduleUpdate initialState ⟨"plant", "AA"⟩ 5).queue "AA" = 1 := by
  have h := (queue_at_most_one_entry initialState
    (by intro k; simp [countKey, initialState])).1 ⟨"plant", "AA"⟩ 5
  exact ⟨h.1, h.2.1⟩

/-! ### `UpdateAll` -/

/-- Well-formedness of the data map, maintained by `AddSensor`: keys are
unique (it is a map) and each record is stored under its sensor's MAC
address. -/
def dataMapWF (st : UpdaterState) : Prop :=
  (st.dataMap.map Prod.fst).Nodup ∧ ∀ p ∈ st.dataMap, p.2.info.macAddress = p.1

theorem foldl_sched_lookup_notmem (ss : List Sensor) (s0 : UpdaterState) (clock : Time)
    (k : String) (hk : ∀ x ∈ ss, x.macAddress ≠ k) :
    mapLookup ((ss.foldl (fun t y => scheduleUpdate t y clock) s0).queue) k =
      mapLookup s0.queue k := by
  induction ss generalizing s0 with
  | nil => rfl
  | cons y tl ih =>
    rw [List.foldl_cons, ih _ (fun x hx => hk x (List.mem_cons_of_mem _ hx))]
    exact mapLookup_insert_ne _ _ _ _ (hk y (List.mem_cons_self _ _))

theorem foldl_sched_lookup_mem (ss : List Sensor) (s0 : UpdaterState) (clock : Time)
    (x : Sensor) (hx : x ∈ ss) (hnd : (ss.map Sensor.macAddress).Nodup) :
    mapLookup ((ss.foldl (fun t y => scheduleUpdate t y clock) s0).queue) x.macAddress =
      some ⟨x, clock, 0⟩ := by
  induction ss generalizing s0 with
  | nil => cases hx
  | cons y tl ih =>
    rw [List.map_cons, List.nodup_cons] at hnd
    rw [List.foldl_cons]
    by_cases hmem : x ∈ tl
    · exact ih _ hmem hnd.2
    · have hxy : x = y := by
        rcases List.mem_cons.mp hx with h | h
        · exact h
        · exact absurd h hmem
      subst hxy
      rw [foldl_sched_lookup_notmem tl _ clock x.macAddress ?_]
      · exact mapLookup_insert_self _ _ _
      · intro z hz hzx
        exact hnd.1 (hzx ▸ List.mem_map.mpr ⟨z, hz, rfl⟩)

/-- C9 (amended): for every registered sensor, `UpdateAll` places it in
the queue with `lastRetryDelay = 0` and `dueTime` equal to the clock
reading taken inside `scheduleUpdate`, regardless of the sensor's
previous queue state; the `now` argument of `UpdateAll` itself is dead
and does not influence the due time. -/
theorem updateAll_schedules_spec (st : UpdaterState) (now clock : Time)
    (hwf : dataMapWF st) :
    ∀ mac entry, mapLookup st.dataMap mac = some entry →
      mapLookup (updateAll st now clock).queue mac = some ⟨entry.info, clock, 0⟩ := by
  intro mac entry hlook
  have hmem : (mac, entry) ∈ st.dataMap := mem_of_mapLookup _ _ _ hlook
  have hmac : entry.info.macAddress = mac := hwf.2 (mac, entry) hmem
  have hsens : entry.info ∈ getSensors st := List.mem_map.mpr ⟨(mac, entry), hmem, rfl⟩
  have hnd : ((getSensors st).map Sensor.macAddress).Nodup := by
    unfold getSensors
    rw [List.map_map]
    have heq : st.dataMap.map (Sensor.macAddress ∘ fun p => p.2.info) =
        st.dataMap.map Prod.fst :=
      List.map_congr_left (fun p hp => hwf.2 p hp)
    rw [heq]
    exact hwf.1
  rw [← hmac]
  unfold updateAll
  exact foldl_sched_lookup_mem _ _ _ _ hsens hnd

/-- C9 counterexample to the claim as stated: the entry's due time is the
scheduling-time clock reading (7), not the `now` argument passed to
`UpdateAll` (5) — the body of `UpdateAll` never uses its `now`
parameter. -/
theorem updateAll_ignores_now :
    mapLookup (updateAll (addSensor initialState ⟨"plant", "AA"⟩) 5 7).queue "AA" =
      some ⟨⟨"plant", "AA"⟩, 7, 0⟩ ∧ (7 : Time) ≠ 5 := by
  exact ⟨rfl, by decide⟩

/-- Witness for `updateAll_schedules_spec`. -/
theorem updateAll_schedules_witness :
    mapLookup (updateAll (addSensor initialState ⟨"plant", "AA"⟩) 5 7).queue "AA" =
      some ⟨Sensor.mk "plant" "AA", 7, 0⟩ :=
  updateAll_schedules_spec (addSensor initialState ⟨"plant", "AA"⟩) 5 7
    (by constructor <;> decide) "AA" ⟨⟨"plant", "AA"⟩, none⟩ rfl

/-! ### Success and failure of an update attempt -/

/-- C6: an update attempt changes the stored reading exactly when it
succeeds.  On success the new state's `GetData` for that address returns
exactly the reading produced by the attempt, every other record and the
queue are untouched.  On failure `updateSensor` only returns the wrapped
read error — the state it was given is not modified — and the loop then
re-enqueues the sensor via `retryItem` with the grown backoff delay
(`nextRetry` of the previous delay, which never shrinks for a valid
configuration), leaving the data map untouched. -/
theorem update_store_iff_success (st : UpdaterState) (sensor : Sensor)
    (entry : DataEntry) (d : MifloraData) (e : String)
    (rc : RetryConfig) (item : QueueItem) (now : Time)
    (hreg : mapLookup st.dataMap sensor.macAddress = some entry) :
    (∃ st' : UpdaterState, updateSensor st sensor (.ok d) = .ok st' ∧
      getData st' sensor.macAddress = .ok d ∧
      st'.queue = st.queue ∧
      (∀ k, k ≠ sensor.macAddress → mapLookup st'.dataMap k = mapLookup st.dataMap k)) ∧
    updateSensor st sensor (.error e) = .err ("can not read data: " ++ e) ∧
    (retryItem rc st item now).dataMap = st.dataMap ∧
    mapLookup (retryItem rc st item now).queue item.sensor.macAddress =
      some ⟨item.sensor, now + nextRetry rc item.lastRetry, nextRetry rc item.lastRetry⟩ ∧
    (0 ≤ item.lastRetry → item.lastRetry ≤ rc.maxDuration → 1 ≤ rc.factor →
      item.lastRetry ≤ nextRetry rc item.lastRetry) := by
  refine ⟨?_, rfl, rfl, mapLookup_insert_self _ _ _,
    fun h1 h2 h3 => le_nextRetry rc _ h1 h2 h3⟩
  refine ⟨{ st with
    dataMap := mapInsert st.dataMap sensor.macAddress (DataEntry.mk entry.info (some d)) },
    ?_, ?_, rfl, ?_⟩
  · unfold updateSensor
    rw [hreg]
  · simp [getData, mapLookup_insert_self]
  · intro k hk
    exact mapLookup_insert_ne _ _ _ _ (Ne.symm hk)

/-- Witness for `update_store_iff_success`: one registered sensor, one
failed read, and the resulting requeue. -/
theorem update_store_iff_success_witness :
    updateSensor (addSensor initialState ⟨"plant", "AA"⟩) ⟨"plant", "AA"⟩
        (.error "boom") = .err ("can not read data: " ++ "boom") ∧
    mapLookup (retryItem defaultRetry (addSensor initialState ⟨"plant", "AA"⟩)
        ⟨⟨"plant", "AA"⟩, 0, 0⟩ 100).queue "AA" =
      some ⟨⟨"plant", "AA"⟩, 100 + nextRetry defaultRetry 0, nextRetry defaultRetry 0⟩ := by
  have h := update_store_iff_success (addSensor initialState ⟨"plant", "AA"⟩)
    ⟨"plant", "AA"⟩ ⟨⟨"plant", "AA"⟩, none⟩ exampleReading "boom" defaultRetry
    ⟨⟨"plant", "AA"⟩, 0, 0⟩ 100 rfl
  exact ⟨h.2.1, h.2.2.2.1⟩

/-! ### The queue drain -/

theorem insertByTime_perm (x : QueueItem) (l : List QueueItem) :
    (insertByTime x l).Perm (x :: l) := by
  induction l with
  | nil => exact List.Perm.refl _
  | cons y ys ih =>
    unfold insertByTime
    by_cases h : x.time < y.time
    · rw [if_pos h]
    · rw [if_neg h]
      exact List.Perm.trans (List.Perm.cons y ih) (List.Perm.swap x y ys)

theorem sortByTime_perm (l : List QueueItem) : (sortByTime l).Perm l := by
  induction l with
  | nil => exact List.Perm.refl _
  | cons x xs ih =>
    unfold sortByTime
    exact List.Perm.trans (insertByTime_perm _ _) (List.Perm.cons x ih)

theorem mem_insertByTime (y x : QueueItem) (l : List QueueItem) :
    y ∈ insertByTime x l ↔ y = x ∨ y ∈ l := by
  rw [(insertByTime_perm x l).mem_iff]
  exact List.mem_cons

theorem insertByTime_pairwise (x : QueueItem) (l : List QueueItem)
    (h : l.Pairwise (fun a b => a.time ≤ b.time)) :
    (insertByTime x l).Pairwise (fun a b => a.time ≤ b.time) := by
  induction l with
  | nil => simp [insertByTime]
  | cons y ys ih =>
    rw [List.pairwise_cons] at h
    unfold insertByTime
    by_cases hxy : x.time < y.time
    · rw [if_pos hxy, List.pairwise_cons]
      constructor
      · intro z hz
        rcases List.mem_cons.mp hz with hzy | hzys
        · rw [hzy]
          exact le_of_lt hxy
        · exact le_trans (le_of_lt hxy) (h.1 z hzys)
      · exact List.pairwise_cons.mpr ⟨h.1, h.2⟩
    · rw [if_neg hxy]
      push_neg at hxy
      rw [List.pairwise_cons]
      constructor
      · intro z hz
        rcases (mem_insertByTime z x ys).mp hz with hzx | hzys
        · rw [hzx]
          exact hxy
        · exact h.1 z hzys
      · exact ih h.2

theorem sortByTime_pairwise (l : List QueueItem) :
    (sortByTime l).Pairwise (fun a b => a.time ≤ b.time) := by
  induction l with
  | nil => exact List.Pairwise.nil
  | cons x xs ih => exact insertByTime_pairwise x (sortByTime xs) ih

theorem sortByTime_head_min (l : List QueueItem) (z : QueueItem) (zs : List QueueItem)
    (h : sortByTime l = z :: zs) : z ∈ l ∧ ∀ y ∈ l, z.time ≤ y.time := by
  have hperm := sortByTime_perm l
  rw [h] at hperm
  constructor
  · exact hperm.subset (List.mem_cons_self z zs)
  · intro y hy
    have hy' : y ∈ z :: zs := hperm.mem_iff.mpr hy
    rcases List.mem_cons.mp hy' with hyz | hyzs
    · rw [hyz]
    · have hpw := sortByTime_pairwise l
      rw [h, List.pairwise_cons] at hpw
      exact hpw.1 y hyzs

/-- C3 (amended: ties are broken arbitrarily, not deterministically —
see the counterexample): the drain pops an entry iff the queue is
non-empty and some (equivalently, the minimum-due) entry is due; the
popped entry is one of minimal due time, is due, was the entry stored for
its address, and is removed from the queue (its key is gone, everything
else is untouched); when nothing is due the queue is unchanged. -/
theorem getNextQueueItem_spec (queue : List (String × QueueItem)) (order : List QueueItem)
    (now : Time)
    (hperm : order.Perm (queue.map Prod.snd))
    (hnd : (queue.map Prod.fst).Nodup)
    (hwf : ∀ p ∈ queue, p.2.sensor.macAddress = p.1) :
    ((getNextQueueItem queue order now).1 ≠ none ↔ ∃ p ∈ queue, p.2.time ≤ now) ∧
    ((getNextQueueItem queue order now).1 = none →
      (getNextQueueItem queue order now).2 = queue) ∧
    (∀ z, (getNextQueueItem queue order now).1 = some z →
      z ∈ queue.map Prod.snd ∧ z.time ≤ now ∧ (∀ p ∈ queue, z.time ≤ p.2.time) ∧
      mapLookup queue z.sensor.macAddress = some z ∧
      (getNextQueueItem queue order now).2 = mapDelete queue z.sensor.macAddress ∧
      mapLookup (getNextQueueItem queue order now).2 z.sensor.macAddress = none ∧
      (∀ k, k ≠ z.sensor.macAddress →
        mapLookup (getNextQueueItem queue order now).2 k = mapLookup queue k)) := by
  by_cases hq : queue.isEmpty
  · have hq' : queue = [] := List.isEmpty_iff.mp hq
    subst hq'
    refine ⟨⟨fun h => absurd rfl h, ?_⟩, fun _ => rfl, fun z hz => Option.noConfusion hz⟩
    rintro ⟨p, hp, -⟩
    cases hp
  · have hqe : queue ≠ [] := fun h => by
      rw [h] at hq
      exact hq rfl
    obtain ⟨z, zs, hs⟩ : ∃ z zs, sortByTime order = z :: zs := by
      cases ho : sortByTime order with
      | nil =>
        exfalso
        have hlen := (sortByTime_perm order).length_eq
        rw [ho] at hlen
        have horder : order = [] := List.length_eq_zero.mp hlen.symm
        rw [horder] at hperm
        have hmap : queue.map Prod.snd = [] := hperm.nil_eq.symm
        exact hqe (List.map_eq_nil_iff.mp hmap)
      | cons z zs => exact ⟨z, zs, rfl⟩
    have hzmin := sortByTime_head_min order z zs hs
    have hzq : z ∈ queue.map Prod.snd := hperm.subset hzmin.1
    have hzmin' : ∀ p ∈ queue, z.time ≤ p.2.time := by
      intro p hp
      exact hzmin.2 p.2 (hperm.mem_iff.mpr (List.mem_map.mpr ⟨p, hp, rfl⟩))
    have hres : getNextQueueItem queue order now =
        if z.time - now > 0 then (none, queue)
        else (some z, mapDelete queue z.sensor.macAddress) := by
      unfold getNextQueueItem
      rw [if_neg hq, hs]
    by_cases ht : z.time - now > 0
    · rw [hres, if_pos ht]
      refine ⟨⟨fun h => absurd rfl h, ?_⟩, fun _ => rfl, fun z' hz' => Option.noConfusion hz'⟩
      rintro ⟨p, hp, hple⟩
      have hle := hzmin' p hp
      exact absurd (le_trans hle hple) (not_le.mpr (sub_pos.mp ht))
    · rw [hres, if_neg ht]
      have hzle : z.time ≤ now := sub_nonpos.mp (not_lt.mp ht)
      obtain ⟨p, hp, hsnd⟩ := List.mem_map.mp hzq
      have hkey : p.1 = z.sensor.macAddress := by
        rw [← hwf p hp, hsnd]
      have hlookup : mapLookup queue z.sensor.macAddress = some z := by
        have hpe : p = (z.sensor.macAddress, z) := Prod.ext hkey hsnd
        rw [hpe] at hp
        exact mapLookup_of_mem_nodup queue _ z hp hnd
      refine ⟨⟨fun _ => ⟨p, hp, ?_⟩, fun _ h => Option.noConfusion h⟩,
        fun h => Option.noConfusion h, ?_⟩
      · rw [hsnd]
        exact hzle
      · intro z' hz'
        have hzz : z = z' := Option.some.inj hz'
        subst hzz
        refine ⟨hzq, hzle, hzmin', hlookup, rfl, mapLookup_delete_self queue _, ?_⟩
        intro k hk
        exact mapLookup_delete_ne queue _ k (Ne.symm hk)

/-- The queue used in the tie-breaking counterexample: two entries, both
due at time 0. -/
def tieQueue : List (String × QueueItem) :=
  [("AA", ⟨⟨"", "AA"⟩, 0, 0⟩), ("BB", ⟨⟨"", "BB"⟩, 0, 0⟩)]

/-- C3 counterexample to deterministic tie-breaking: on a well-formed
queue with two entries of equal due time, two iteration orders — both
permutations of the same map contents, as Go's unspecified (randomized)
map iteration order may produce — pop different entries, so the popped
entry is not a function of the queue state and the time alone. -/
theorem getNextQueueItem_tie_nondeterministic :
    (tieQueue.map Prod.fst).Nodup ∧
    (∀ p ∈ tieQueue, p.2.sensor.macAddress = p.1) ∧
    [QueueItem.mk ⟨"", "AA"⟩ 0 0, QueueItem.mk ⟨"", "BB"⟩ 0 0].Perm
      (tieQueue.map Prod.snd) ∧
    [QueueItem.mk ⟨"", "BB"⟩ 0 0, QueueItem.mk ⟨"", "AA"⟩ 0 0].Perm
      (tieQueue.map Prod.snd) ∧
    (getNextQueueItem tieQueue [⟨⟨"", "AA"⟩, 0, 0⟩, ⟨⟨"", "BB"⟩, 0, 0⟩] 0).1 ≠
      (getNextQueueItem tieQueue [⟨⟨"", "BB"⟩, 0, 0⟩, ⟨⟨"", "AA"⟩, 0, 0⟩] 0).1 := by
  decide

/-- Witness for `getNextQueueItem_spec`: a single queued entry due in the
past. -/
theorem getNextQueueItem_spec_witness :
    (getNextQueueItem [("AA", ⟨⟨"plant", "AA"⟩, 0, 0⟩)] [⟨⟨"plant", "AA"⟩, 0, 0⟩] 5).1 ≠
        none ↔
      ∃ p ∈ [("AA", (⟨⟨"plant", "AA"⟩, 0, 0⟩ : QueueItem))], p.2.time ≤ 5 :=
  (getNextQueueItem_spec [("AA", ⟨⟨"plant", "AA"⟩, 0, 0⟩)] [⟨⟨"plant", "AA"⟩, 0, 0⟩] 5
    (by decide) (by decide) (by decide)).1

/-! ### Serialization of update attempts -/

/-- C1: update attempts never overlap.  The loop body of `Updater.Start`
is sequential straight-line code in a single goroutine, modelled by
`loopTick`/`runTicks`: each loop iteration performs at most one BLE read
(carried out synchronously to completion or failure inside the
iteration, before the next iteration pops the queue again), and a run of
any number of iterations performs its reads strictly one after another —
at most one per iteration, hence never two at the same instant, for any
number of registered sensors and any sequence of refresh ticks. -/
theorem one_attempt_at_a_time :
    (∀ (rc : RetryConfig) (st : UpdaterState) (order : List QueueItem) (now : Time)
      (readResult : String → Except String MifloraData),
      (loopTick rc st order now readResult).2.length ≤ 1) ∧
    (∀ (rc : RetryConfig) (inputs : List TickInput) (st : UpdaterState),
      (runTicks rc st inputs).2.length ≤ inputs.length) := by
  have htick : ∀ (rc : RetryConfig) (st : UpdaterState) (order : List QueueItem) (now : Time)
      (readResult : String → Except String MifloraData),
      (loopTick rc st order now readResult).2.length ≤ 1 := by
    intro rc st order now readResult
    unfold loopTick
    split
    · simp
    · dsimp only
      split <;> simp
  refine ⟨htick, ?_⟩
  intro rc inputs st
  induction inputs generalizing st with
  | nil => simp [runTicks]
  | cons t rest ih =>
    have htick1 := htick rc st t.order t.now t.readResult
    unfold runTicks
    cases hl : loopTick rc st t.order t.now t.readResult with
    | mk stOpt reads =>
      rw [hl] at htick1
      cases stOpt with
      | none =>
        dsimp only
        exact le_trans htick1 (by simp)
      | some st1 =>
        dsimp only
        rw [List.length_append]
        have hrest := ih st1
        rw [List.length_cons]
        exact le_trans (Nat.add_le_add htick1 hrest) (by rw [Nat.add_comm])

end Flowercare
